import Mathlib

/-!
Verification of the experience-replay buffer, the annealed epsilon-greedy
exploration policy, and the frame-preprocessing glue described by the
specification of the GYM-tryouts repository (src/4_atari/breakout-v0.py and
src/4_atari/test.py).

The script itself only configures library components (SequentialMemory,
LinearAnnealedPolicy, EpsGreedyQPolicy, cv2.cvtColor); where the deciding
code is not part of the repository, the component is modelled from the
spec's words, as marked in each doc comment.  Machine floats are modelled
as rationals.
-/

/-- Transition record from the spec's data model: one
`(observation, action, reward, terminal)` tuple per environment step.
An observation is a fixed-shape numeric array, modelled as a
list of rows of rationals. -/
structure Transition where
  observation : List (List ℚ)
  action : ℕ
  reward : ℚ
  terminal : Bool
  deriving DecidableEq

/-- Modelled from the spec: `LinearAnnealedPolicy(EpsGreedyQPolicy(), attr=eps,
value_max, value_min, value_test, nb_steps)` — exploration policy state
(value_max, value_min, value_test, nb_steps) with a piecewise-linear
annealed exploration fraction.  The implementation lives in the imported
`rl.policy` library, not in this repository. -/
structure LinearAnnealedPolicy where
  value_max : ℚ
  value_min : ℚ
  value_test : ℚ
  nb_steps : ℕ
  deriving DecidableEq

/-- Modelled from the spec: `epsilon(step) = value_max -
(value_max - value_min) * min(step, nb_steps) / nb_steps`, clamped so that
for `step ≥ nb_steps`, `epsilon = value_min`. -/
def LinearAnnealedPolicy.epsilon (p : LinearAnnealedPolicy) (step : ℕ) : ℚ :=
  p.value_max - (p.value_max - p.value_min) * ((min step p.nb_steps : ℕ) : ℚ) / (p.nb_steps : ℚ)

/-- Modelled from the spec: if `training` is false, the exploration
fraction is fixed at `value_test` rather than following the anneal
schedule; during training it is `epsilon(current_step)`. -/
def LinearAnnealedPolicy.get_current_value (p : LinearAnnealedPolicy)
    (training : Bool) (current_step : ℕ) : ℚ :=
  if training then p.epsilon current_step else p.value_test

/-- Modelled from the spec: `SequentialMemory(limit, window_length)` — a
bounded, ordered, fixed-capacity store of past Transitions, oldest first.
The implementation lives in the imported `rl.memory` library, not in this
repository. -/
structure SequentialMemory where
  limit : ℕ
  window_length : ℕ
  entries : List Transition
  deriving DecidableEq

/-- Modelled from the spec: a replay buffer is created empty at process
start with a fixed capacity and a fixed window length. -/
def SequentialMemory.create (limit window_length : ℕ) : SequentialMemory :=
  ⟨limit, window_length, []⟩

/-- Modelled from the spec: `length()` — the current number of stored
Transitions. -/
def SequentialMemory.length (m : SequentialMemory) : ℕ := m.entries.length

/-- Modelled from the spec: `append(transition)` inserts at the logical
end; if length equals capacity, the oldest entry is evicted first. -/
def SequentialMemory.append (m : SequentialMemory) (t : Transition) : SequentialMemory :=
  if m.entries.length = m.limit then
    { m with entries := m.entries.tail ++ [t] }
  else
    { m with entries := m.entries ++ [t] }

/-- Sequence of `append` calls, one per environment step, oldest first. -/
def SequentialMemory.appendAll (m : SequentialMemory) : List Transition → SequentialMemory
  | [] => m
  | t :: ts => (m.append t).appendAll ts

/-- Modelled from the spec: a Window Sample is the contiguous run of
`window_length` consecutive Transitions ending at the sampled index `i`. -/
def SequentialMemory.window (m : SequentialMemory) (i : ℕ) : List Transition :=
  (m.entries.drop (i + 1 - m.window_length)).take m.window_length

/-- Modelled from the spec: `sample_batch(batch_size, window_length)`
returns `batch_size` Window Samples, each ending at an index drawn
uniformly at random from `[window_length - 1, length - 1]`; the random
draws are modelled by the explicit index list `idxs`, one per batch
element.  It fails with an empty result (`none`) whenever
`length < window_length`. -/
def SequentialMemory.sample_batch (m : SequentialMemory) (idxs : List ℕ) :
    Option (List (List Transition)) :=
  if m.length < m.window_length then none
  else some (idxs.map m.window)

/-- Modelled from the spec: the training loop performs the optimization
step of an iteration only when sampling succeeds, and simply skips it
(non-fatally) when the buffer reports insufficient history. -/
def trainIterationOptimizes (m : SequentialMemory) (idxs : List ℕ) : Bool :=
  match m.sample_batch idxs with
  | none => false
  | some _ => true

/-- Maximum value of a list of rationals (0 for the empty list, which the
policy never receives). -/
def listMax : List ℚ → ℚ
  | [] => 0
  | [v] => v
  | v :: w :: vs => max v (listMax (w :: vs))

/-- Modelled from the spec: the index of the maximum value in
`action_values`, ties broken by first occurrence (lowest index). -/
def EpsGreedyQPolicy.argmax (action_values : List ℚ) : ℕ :=
  action_values.indexOf (listMax action_values)

/-- Modelled from the spec: `select_action(action_values, training)` —
with probability `eps` a uniformly random action index is returned
(modelled by the sampled uniform draw `rand` in `[0, 1)` and the random
index `randAction`); otherwise the index of the maximum value is returned
(exploitation).  The implementation lives in the imported `rl.policy`
library, not in this repository. -/
def EpsGreedyQPolicy.select_action (eps rand : ℚ) (randAction : ℕ)
    (action_values : List ℚ) : ℕ :=
  if rand < eps then randAction else EpsGreedyQPolicy.argmax action_values

/-- Modelled from the spec: the process configuration — step budget,
buffer capacity, window length and the three epsilon bounds — supplied
once at startup, with the capacity and step budget as signed integers so
that invalid nonpositive settings are representable. -/
structure AgentConfig where
  limit : ℤ
  window_length : ℤ
  value_max : ℚ
  value_min : ℚ
  value_test : ℚ
  nb_steps : ℤ
  deriving DecidableEq

/-- Modelled from the spec: a configuration is valid when capacity > 0,
`value_min ≤ value_max` and `nb_steps > 0`. -/
def AgentConfig.valid (c : AgentConfig) : Bool :=
  decide (0 < c.limit) && decide (c.value_min ≤ c.value_max) && decide (0 < c.nb_steps)

/-- Modelled from the spec: startup validates the configuration and fails
fast with a fatal error before any environment interaction begins;
otherwise the run proceeds and takes its budget of environment steps.
The `ok` payload records how many environment steps the run takes. -/
def startupAndTrain (c : AgentConfig) (budget : ℕ) : Except String ℕ :=
  if c.valid then Except.ok budget else Except.error "invalid configuration"

/-- Number of environment interactions a startup outcome performs: a run
aborted by a fatal startup error performs none. -/
def envInteractions : Except String ℕ → ℕ
  | Except.error _ => 0
  | Except.ok n => n

/-- The NUM_STEPS constant of breakout-v0.py (line 22): the number of
actions to perform during training. -/
def NUM_STEPS : ℕ := 500000

/-- The LinearAnnealedPolicy configuration constructed by build_agent in
breakout-v0.py (lines 104-110): value_max = 1.0, value_min = 0.1,
value_test = 0.2, nb_steps = NUM_STEPS. -/
def breakoutPolicy : LinearAnnealedPolicy :=
  { value_max := 1, value_min := 1/10, value_test := 2/10, nb_steps := NUM_STEPS }

/-- The SequentialMemory constructed by build_agent in breakout-v0.py
(line 111): limit = 1000, window_length = 3. -/
def breakoutMemory : SequentialMemory :=
  SequentialMemory.create 1000 3

/-- The nb_steps argument passed to dqn.fit in breakout-v0.py (line 156). -/
def breakoutFitSteps : ℕ := NUM_STEPS

/-- The LinearAnnealedPolicy configuration constructed by build_agent in
test.py (line 56): value_max = 1.0, value_min = 0.1, value_test = 0.2,
nb_steps = 10000. -/
def testPolicy : LinearAnnealedPolicy :=
  { value_max := 1, value_min := 1/10, value_test := 2/10, nb_steps := 10000 }

/-- The nb_steps argument passed to dqn.fit in test.py (line 66). -/
def testFitSteps : ℕ := 10000

/-- Modelled from the spec: cv2.cvtColor with COLOR_BGR2GRAY (imported
from the OpenCV library, not part of this repository) collapses the three
colour channels of each pixel into one weighted grayscale intensity,
preserving the height and width of the frame.  A colour frame is a list
of rows of channel triples. -/
def cvtColorGray (observation : List (List (ℚ × ℚ × ℚ))) : List (List ℚ) :=
  observation.map (fun row =>
    row.map (fun px => (299/1000) * px.1 + (587/1000) * px.2.1 + (114/1000) * px.2.2))

/-- The CustomerProcessor.process_observation method of breakout-v0.py
(lines 41-45): converts the colour frame to grayscale and reshapes the
(h, w) result to (h, w, 1), wrapping every scalar into a one-element
channel list. -/
def CustomerProcessor.process_observation (observation : List (List (ℚ × ℚ × ℚ))) :
    List (List (List ℚ)) :=
  (cvtColorGray observation).map (fun row => row.map (fun v => [v]))

/-- The CustomerProcessor.process_reward method of breakout-v0.py (lines
47-49): uses the default reward unchanged. -/
def CustomerProcessor.process_reward (reward : ℚ) : ℚ := reward

/-- Modelled from the spec: process_info of the base Processor class in
the imported rl.core library returns info unchanged. -/
def CustomerProcessor.process_info {α : Type} (info : α) : α := info

/-- The CustomerProcessor.process_step method of breakout-v0.py (lines
35-39): processes the observation, reward and info components and passes
the done flag through untouched. -/
def CustomerProcessor.process_step {α : Type}
    (observation : List (List (ℚ × ℚ × ℚ))) (reward : ℚ) (done : Bool) (info : α) :
    List (List (List ℚ)) × ℚ × Bool × α :=
  (CustomerProcessor.process_observation observation,
   CustomerProcessor.process_reward reward, done,
   CustomerProcessor.process_info info)

/-- Claim C2: for every step and every configuration with
`0 ≤ value_min ≤ value_max ≤ 1` and `nb_steps > 0`, the exploration
fraction satisfies
`epsilon(step) = value_max - (value_max - value_min) * min(step, nb_steps) / nb_steps`;
in particular `epsilon(0) = value_max`, `epsilon(nb_steps) = value_min`, and
`epsilon(step) = value_min` for every `step > nb_steps`. -/
theorem C2_epsilon_formula (p : LinearAnnealedPolicy)
    (hmin : 0 ≤ p.value_min) (hle : p.value_min ≤ p.value_max)
    (hmax : p.value_max ≤ 1) (hn : 0 < p.nb_steps) :
    (∀ step : ℕ, p.epsilon step =
      p.value_max - (p.value_max - p.value_min) * ((min step p.nb_steps : ℕ) : ℚ) / (p.nb_steps : ℚ)) ∧
    p.epsilon 0 = p.value_max ∧
    p.epsilon p.nb_steps = p.value_min ∧
    (∀ step : ℕ, p.nb_steps < step → p.epsilon step = p.value_min) := by
  have hn' : ((p.nb_steps : ℚ)) ≠ 0 := by
    exact_mod_cast hn.ne'
  refine ⟨fun step => rfl, ?_, ?_, ?_⟩
  · simp [LinearAnnealedPolicy.epsilon]
  · simp only [LinearAnnealedPolicy.epsilon, min_self]
    field_simp
  · intro step hstep
    have hmin' : min step p.nb_steps = p.nb_steps := min_eq_right hstep.le
    simp only [LinearAnnealedPolicy.epsilon, hmin']
    field_simp

/-- Witness for C2 at the concrete configuration of breakout-v0.py
(`value_max = 1`, `value_min = 1/10`, `nb_steps = 10` scaled down). -/
theorem C2_epsilon_formula_witness :
    (⟨1, 1/10, 2/10, 10⟩ : LinearAnnealedPolicy).epsilon 10 = 1/10 :=
  (C2_epsilon_formula ⟨1, 1/10, 2/10, 10⟩ (by norm_num) (by norm_num)
    (by norm_num) (by norm_num)).2.2.1

/-- Claim C5: for every pair of steps `s1 ≤ s2`, `epsilon(s1) ≥ epsilon(s2)`:
the exploration fraction is a non-increasing function of the step index. -/
theorem C5_epsilon_monotone (p : LinearAnnealedPolicy)
    (hle : p.value_min ≤ p.value_max) (hn : 0 < p.nb_steps)
    (s1 s2 : ℕ) (h12 : s1 ≤ s2) :
    p.epsilon s2 ≤ p.epsilon s1 := by
  have hA : (0 : ℚ) ≤ p.value_max - p.value_min := by linarith
  have hN : (0 : ℚ) < (p.nb_steps : ℚ) := by exact_mod_cast hn
  have hm : ((min s1 p.nb_steps : ℕ) : ℚ) ≤ ((min s2 p.nb_steps : ℕ) : ℚ) := by
    exact_mod_cast min_le_min h12 le_rfl
  unfold LinearAnnealedPolicy.epsilon
  gcongr

/-- Witness for C5 at a concrete configuration and step pair. -/
theorem C5_epsilon_monotone_witness :
    (⟨1, 1/10, 2/10, 10⟩ : LinearAnnealedPolicy).epsilon 7 ≤
      (⟨1, 1/10, 2/10, 10⟩ : LinearAnnealedPolicy).epsilon 3 :=
  C5_epsilon_monotone ⟨1, 1/10, 2/10, 10⟩ (by norm_num) (by norm_num) 3 7 (by norm_num)

/-- Claim C6: for every current step, `select_action` called with
`training = false` uses exactly `value_test` as the exploration
probability, independent of the step and of the anneal schedule. -/
theorem C6_value_test_in_test_mode (p : LinearAnnealedPolicy) :
    (∀ current_step : ℕ,
      p.get_current_value false current_step = p.value_test) ∧
    (∀ s1 s2 : ℕ,
      p.get_current_value false s1 = p.get_current_value false s2) := by
  constructor
  · intro current_step
    simp [LinearAnnealedPolicy.get_current_value]
  · intro s1 s2
    simp [LinearAnnealedPolicy.get_current_value]

/-- Helper: after a sequence of appends starting from a buffer whose
contents fit within a positive capacity, the contents are the suffix of
the concatenated stream that fits within the capacity. -/
theorem SequentialMemory.appendAll_entries (c w : ℕ) (hc : 0 < c)
    (ts : List Transition) :
    ∀ init : List Transition, init.length ≤ c →
    (SequentialMemory.appendAll ⟨c, w, init⟩ ts).entries =
      (init ++ ts).drop (init.length + ts.length - c) := by
  induction ts with
  | nil =>
    intro init hinit
    have h0 : init.length - c = 0 := by omega
    simp [SequentialMemory.appendAll, h0]
  | cons t ts ih =>
    intro init hinit
    rw [SequentialMemory.appendAll]
    by_cases h : init.length = c
    · cases init with
      | nil =>
        simp only [List.length_nil] at h
        omega
      | cons i0 init' =>
        have hlen : init'.length + 1 = c := by simpa using h
        have happ : (SequentialMemory.mk c w (i0 :: init')).append t =
            ⟨c, w, init' ++ [t]⟩ := by
          simp [SequentialMemory.append, h]
        have hle2 : (init' ++ [t]).length ≤ c := by
          simp only [List.length_append, List.length_cons, List.length_nil]
          omega
        rw [happ, ih (init' ++ [t]) hle2]
        have h1 : (init' ++ [t]).length + ts.length - c = ts.length := by
          simp only [List.length_append, List.length_cons, List.length_nil]
          omega
        have h2 : (i0 :: init').length + (t :: ts).length - c = ts.length + 1 := by
          simp only [List.length_cons]
          omega
        rw [h1, h2, List.append_assoc, List.singleton_append, List.cons_append,
          List.drop_succ_cons]
    · have happ : (SequentialMemory.mk c w init).append t =
          ⟨c, w, init ++ [t]⟩ := by
        simp [SequentialMemory.append, h]
      have hle2 : (init ++ [t]).length ≤ c := by
        simp only [List.length_append, List.length_cons, List.length_nil]
        omega
      rw [happ, ih (init ++ [t]) hle2]
      have h1 : (init ++ [t]).length + ts.length - c =
          init.length + (t :: ts).length - c := by
        simp only [List.length_append, List.length_cons, List.length_nil, List.length_cons]
        omega
      rw [h1, List.append_assoc, List.singleton_append]

/-- Claim C1: for every sequence of n appends into a replay buffer created
with positive capacity c, the final length is min(n, c) and the contents
are exactly the most recent min(n, c) appended Transitions in insertion
order; in particular, after appending c+1 transitions the first-appended
transition (when distinct from the rest) is no longer in the buffer — FIFO
eviction of the oldest on every append at capacity. -/
theorem C1_fifo_ring_buffer (c w : ℕ) (hc : 0 < c) (ts : List Transition) :
    ((SequentialMemory.create c w).appendAll ts).length = min ts.length c ∧
    ((SequentialMemory.create c w).appendAll ts).entries = ts.drop (ts.length - c) ∧
    (∀ t0 rest, ts = t0 :: rest → rest.length = c → t0 ∉ rest →
      t0 ∉ ((SequentialMemory.create c w).appendAll ts).entries) := by
  have hbase := SequentialMemory.appendAll_entries c w hc ts []
    (by simp only [List.length_nil]; omega)
  simp only [List.nil_append, List.length_nil, Nat.zero_add] at hbase
  have hentries : ((SequentialMemory.create c w).appendAll ts).entries =
      ts.drop (ts.length - c) := hbase
  refine ⟨?_, hentries, ?_⟩
  · rw [SequentialMemory.length, hentries, List.length_drop]
    omega
  · intro t0 rest hts hlen hmem
    rw [hentries, hts]
    have hdrop : (t0 :: rest).length - c = 1 := by
      simp only [List.length_cons]
      omega
    rw [hdrop]
    simpa using hmem

/-- Witness for C1 at capacity 2 with three distinct concrete transitions:
the first-appended transition has been evicted. -/
theorem C1_fifo_ring_buffer_witness :
    (⟨[], 0, 0, false⟩ : Transition) ∉
      ((SequentialMemory.create 2 3).appendAll
        [⟨[], 0, 0, false⟩, ⟨[], 1, 0, false⟩, ⟨[], 2, 0, false⟩]).entries :=
  (C1_fifo_ring_buffer 2 3 (by decide)
      [⟨[], 0, 0, false⟩, ⟨[], 1, 0, false⟩, ⟨[], 2, 0, false⟩]).2.2
    ⟨[], 0, 0, false⟩ [⟨[], 1, 0, false⟩, ⟨[], 2, 0, false⟩] rfl (by decide) (by decide)

/-- Claim C3: sample_batch fails with an empty result exactly when the
buffer length is below the window length, and the training caller then
skips the optimization step non-fatally; whenever length is at least the
window length it returns one Window Sample per sampled index, each a
contiguous run of window_length consecutive Transitions ending at its
index from [window_length - 1, length - 1]; in the boundary case
length = window_length the only valid index is window_length - 1 and its
window spans the entire buffer. -/
theorem C3_sample_batch_windows (m : SequentialMemory) (idxs : List ℕ)
    (hw : 0 < m.window_length) :
    (m.length < m.window_length →
      m.sample_batch idxs = none ∧ trainIterationOptimizes m idxs = false) ∧
    (m.window_length ≤ m.length →
      m.sample_batch idxs = some (idxs.map m.window) ∧
      (idxs.map m.window).length = idxs.length ∧
      trainIterationOptimizes m idxs = true) ∧
    (∀ i, m.window_length - 1 ≤ i → i < m.length →
      (m.window i).length = m.window_length ∧
      (∀ j, j < m.window_length →
        (m.window i)[j]? = m.entries[i + 1 - m.window_length + j]?)) ∧
    (m.length = m.window_length →
      (∀ i, (m.window_length - 1 ≤ i ∧ i < m.length) ↔ i = m.window_length - 1) ∧
      m.window (m.window_length - 1) = m.entries) := by
  refine ⟨?_, ?_, ?_, ?_⟩
  · intro hlt
    constructor
    · simp [SequentialMemory.sample_batch, hlt]
    · simp [trainIterationOptimizes, SequentialMemory.sample_batch, hlt]
  · intro hge
    have hnlt : ¬ m.length < m.window_length := not_lt.mpr hge
    refine ⟨?_, ?_, ?_⟩
    · simp [SequentialMemory.sample_batch, hnlt]
    · simp
    · simp [trainIterationOptimizes, SequentialMemory.sample_batch, hnlt]
  · intro i hi1 hi2
    rw [SequentialMemory.length] at hi2
    constructor
    · rw [SequentialMemory.window, List.length_take, List.length_drop]
      omega
    · intro j hj
      rw [SequentialMemory.window, List.getElem?_take, if_pos hj,
        List.getElem?_drop]
  · intro heq
    constructor
    · intro i
      omega
    · rw [SequentialMemory.window]
      have h0 : m.window_length - 1 + 1 - m.window_length = 0 := by omega
      rw [h0, List.drop_zero, ← heq, SequentialMemory.length]
      exact List.take_length m.entries

/-- Witness for C3 at a concrete buffer holding exactly one full window:
sampling succeeds and the training iteration optimizes. -/
theorem C3_sample_batch_windows_witness :
    trainIterationOptimizes ⟨10, 3, [⟨[], 0, 0, false⟩, ⟨[], 1, 0, false⟩,
      ⟨[], 2, 0, true⟩]⟩ [2] = true :=
  ((C3_sample_batch_windows ⟨10, 3, [⟨[], 0, 0, false⟩, ⟨[], 1, 0, false⟩,
      ⟨[], 2, 0, true⟩]⟩ [2] (by decide)).2.1 (by decide)).2.2

/-- Helper: every element of a list of rationals is at most listMax. -/
theorem le_listMax (l : List ℚ) : ∀ x ∈ l, x ≤ listMax l := by
  induction l with
  | nil => simp
  | cons v vs ih =>
    cases vs with
    | nil =>
      intro x hx
      simp only [List.mem_singleton] at hx
      subst hx
      exact le_of_eq rfl
    | cons w ws =>
      intro x hx
      rcases List.mem_cons.mp hx with rfl | hx'
      · exact le_max_left _ _
      · exact le_trans (ih x hx') (le_max_right _ _)

/-- Helper: the maximum of a nonempty list of rationals is an element. -/
theorem listMax_mem (l : List ℚ) (h : l ≠ []) : listMax l ∈ l := by
  induction l with
  | nil => exact absurd rfl h
  | cons v vs ih =>
    cases vs with
    | nil => simp [listMax]
    | cons w ws =>
      have hmax : listMax (v :: w :: ws) = max v (listMax (w :: ws)) := rfl
      rcases le_total v (listMax (w :: ws)) with hle | hle
      · rw [hmax, max_eq_right hle]
        exact List.mem_cons_of_mem v (ih (by simp))
      · rw [hmax, max_eq_left hle]
        exact List.mem_cons_self v (w :: ws)

/-- Helper: every position strictly before the first occurrence of a value
holds a different value. -/
theorem getElem?_ne_of_lt_indexOf (l : List ℚ) (x : ℚ) :
    ∀ j, j < l.indexOf x → l[j]? ≠ some x := by
  induction l with
  | nil =>
    intro j hj
    simp [List.indexOf] at hj
  | cons v vs ih =>
    intro j hj
    by_cases hvx : v = x
    · subst hvx
      simp [List.indexOf_cons] at hj
    · have hbeq : (v == x) = false := by simp [hvx]
      rw [List.indexOf_cons, hbeq, cond_false] at hj
      cases j with
      | zero =>
        simp [hvx]
      | succ j' =>
        have hj' : j' < vs.indexOf x := by omega
        simpa using ih j' hj'

/-- Claim C4: with exploration probability 0 (pure exploitation),
select_action returns the index of the maximum of action_values, ties
broken by first occurrence, deterministically across repeated calls; in
particular for [0.1, 0.9, 0.9, 0.2] it always returns index 1. -/
theorem C4_select_action_exploit (rand : ℚ) (randAction : ℕ) (hrand : 0 ≤ rand) :
    (∀ action_values, EpsGreedyQPolicy.select_action 0 rand randAction action_values =
      EpsGreedyQPolicy.argmax action_values) ∧
    (∀ action_values : List ℚ, action_values ≠ [] →
      EpsGreedyQPolicy.argmax action_values < action_values.length ∧
      action_values[EpsGreedyQPolicy.argmax action_values]? =
        some (listMax action_values) ∧
      (∀ x ∈ action_values, x ≤ listMax action_values) ∧
      (∀ j, j < EpsGreedyQPolicy.argmax action_values →
        action_values[j]? ≠ some (listMax action_values))) ∧
    (∀ (rand2 : ℚ) (randAction2 : ℕ), 0 ≤ rand2 →
      EpsGreedyQPolicy.select_action 0 rand randAction [1/10, 9/10, 9/10, 2/10] =
        EpsGreedyQPolicy.select_action 0 rand2 randAction2 [1/10, 9/10, 9/10, 2/10]) ∧
    EpsGreedyQPolicy.select_action 0 rand randAction [1/10, 9/10, 9/10, 2/10] = 1 := by
  have hsel : ∀ (r : ℚ) (a : ℕ) (av : List ℚ), 0 ≤ r →
      EpsGreedyQPolicy.select_action 0 r a av = EpsGreedyQPolicy.argmax av := by
    intro r a av hr
    rw [EpsGreedyQPolicy.select_action, if_neg (not_lt.mpr hr)]
  refine ⟨fun av => hsel rand randAction av hrand, ?_, ?_, ?_⟩
  · intro av hav
    have hmem := listMax_mem av hav
    have hidx : av.indexOf (listMax av) < av.length := List.indexOf_lt_length.mpr hmem
    refine ⟨hidx, ?_, le_listMax av, ?_⟩
    · rw [EpsGreedyQPolicy.argmax, List.getElem?_eq_getElem hidx,
        List.getElem_indexOf hidx]
    · intro j hj
      exact getElem?_ne_of_lt_indexOf av (listMax av) j hj
  · intro rand2 randAction2 hrand2
    rw [hsel rand randAction _ hrand, hsel rand2 randAction2 _ hrand2]
  · rw [hsel rand randAction _ hrand]
    norm_num [EpsGreedyQPolicy.argmax, listMax, List.indexOf_cons, max_def]

/-- Witness for C4 at the sampled uniform draw 1/2 and random index 0. -/
theorem C4_select_action_exploit_witness :
    EpsGreedyQPolicy.select_action 0 (1/2) 0 [1/10, 9/10, 9/10, 2/10] = 1 :=
  (C4_select_action_exploit (1/2) 0 (by norm_num)).2.2.2

/-- Claim C7: for every configuration with capacity ≤ 0, or
value_min > value_max, or nb_steps ≤ 0, startup fails fast with a fatal
error before any environment interaction begins; no environment step is
taken under an invalid configuration. -/
theorem C7_invalid_config_fatal (c : AgentConfig) (budget : ℕ)
    (hbad : c.limit ≤ 0 ∨ c.value_max < c.value_min ∨ c.nb_steps ≤ 0) :
    startupAndTrain c budget = Except.error "invalid configuration" ∧
    envInteractions (startupAndTrain c budget) = 0 := by
  have hval : c.valid = false := by
    rw [AgentConfig.valid]
    rcases hbad with h | h | h
    · rw [decide_eq_false (not_lt.mpr h)]
      simp
    · rw [decide_eq_false (not_le.mpr h)]
      simp
    · rw [decide_eq_false (not_lt.mpr h)]
      simp
  simp [startupAndTrain, hval, envInteractions]

/-- Witness for C7 at the concrete invalid configuration with capacity 0. -/
theorem C7_invalid_config_fatal_witness :
    startupAndTrain ⟨0, 3, 1, 1/10, 2/10, 500000⟩ 500000 =
      Except.error "invalid configuration" :=
  (C7_invalid_config_fatal ⟨0, 3, 1, 1/10, 2/10, 500000⟩ 500000
    (Or.inl (by norm_num))).1

/-- Claim C8: the configuration constructed by build_agent in
breakout-v0.py satisfies the spec's validity preconditions —
0 ≤ value_min = 0.1 ≤ value_max = 1 ≤ 1, capacity limit = 1000 > 0,
nb_steps = 500000 > 0, window_length = 3 ≥ 1 — and the annealing budget
equals the NUM_STEPS = 500000 training budget given to fit, so epsilon
reaches value_min exactly when training ends; test.py likewise uses equal
budgets of 10000. -/
theorem C8_breakout_config_valid :
    breakoutPolicy.value_min = 1/10 ∧
    breakoutPolicy.value_max = 1 ∧
    (0 ≤ breakoutPolicy.value_min ∧
      breakoutPolicy.value_min ≤ breakoutPolicy.value_max ∧
      breakoutPolicy.value_max ≤ 1) ∧
    (breakoutMemory.limit = 1000 ∧ 0 < breakoutMemory.limit) ∧
    (breakoutPolicy.nb_steps = 500000 ∧ 0 < breakoutPolicy.nb_steps) ∧
    (breakoutMemory.window_length = 3 ∧ 1 ≤ breakoutMemory.window_length) ∧
    (breakoutPolicy.nb_steps = NUM_STEPS ∧ breakoutFitSteps = NUM_STEPS ∧
      breakoutPolicy.nb_steps = breakoutFitSteps) ∧
    breakoutPolicy.epsilon breakoutFitSteps = breakoutPolicy.value_min ∧
    testPolicy.nb_steps = testFitSteps := by
  refine ⟨rfl, rfl, ⟨by norm_num [breakoutPolicy], by norm_num [breakoutPolicy],
    by norm_num [breakoutPolicy]⟩, ⟨rfl, by decide⟩, ⟨rfl, by decide⟩,
    ⟨rfl, by decide⟩, ⟨rfl, rfl, rfl⟩, ?_, rfl⟩
  norm_num [breakoutPolicy, breakoutFitSteps, NUM_STEPS,
    LinearAnnealedPolicy.epsilon]

/-- Claim C9: for every observation of shape (h, w, 3) — h rows of w
channel triples — process_observation returns an array of shape
(h, w, 1): the height is preserved, each row keeps its width, and every
pixel holds exactly one grayscale channel. -/
theorem C9_process_observation_shape (observation : List (List (ℚ × ℚ × ℚ))) :
    (CustomerProcessor.process_observation observation).length =
      observation.length ∧
    (∀ i : ℕ, ((CustomerProcessor.process_observation observation)[i]?).map
        List.length = (observation[i]?).map List.length) ∧
    (∀ row ∈ CustomerProcessor.process_observation observation,
      ∀ px ∈ row, px.length = 1) := by
  refine ⟨by simp [CustomerProcessor.process_observation, cvtColorGray], ?_, ?_⟩
  · intro i
    rw [CustomerProcessor.process_observation, List.getElem?_map, cvtColorGray,
      List.getElem?_map]
    rcases h : observation[i]? with _ | row
    · simp
    · simp
  · intro row hrow px hpx
    simp only [CustomerProcessor.process_observation, List.mem_map] at hrow
    obtain ⟨grow, hgrow, rfl⟩ := hrow
    simp only [List.mem_map] at hpx
    obtain ⟨v, hv, rfl⟩ := hpx
    rfl

/-- Witness for C9 at a concrete one-pixel black frame. -/
theorem C9_process_observation_shape_witness :
    ([(0 : ℚ)] : List ℚ).length = 1 :=
  (C9_process_observation_shape [[(0, 0, 0)]]).2.2 [[0]]
    (by norm_num [CustomerProcessor.process_observation, cvtColorGray]) [0]
    (by norm_num)

/-- Claim C10: process_step returns the reward and done components
unchanged — process_reward is the identity on rewards and the done flag
is passed through untouched — so only the observation (and info)
components are transformed by preprocessing. -/
theorem C10_process_step_passes_reward_done {α : Type}
    (observation : List (List (ℚ × ℚ × ℚ))) (reward : ℚ) (done : Bool)
    (info : α) :
    (CustomerProcessor.process_step observation reward done info).2.1 = reward ∧
    (CustomerProcessor.process_step observation reward done info).2.2.1 = done ∧
    CustomerProcessor.process_reward reward = reward ∧
    CustomerProcessor.process_step observation reward done info =
      (CustomerProcessor.process_observation observation, reward, done, info) :=
  ⟨rfl, rfl, rfl, rfl⟩
